import Mathlib

/-
Verification of py-modbus-web-monitor.

Shallow embedding of the core of the repository:
  * `compute_z_score` and the anomaly scoring helpers
    (src/modbus_web_monitor/data_logger.py, src/modbus_web_monitor/api.py),
  * the SQLite data-logger row construction and the retained-kinds allow-list
    (src/modbus_web_monitor/data_logger.py),
  * the websocket monitor handshake and the write loop
    (src/modbus_web_monitor/api.py, src/modbus_web_monitor/monitor.py),
  * the schema validation of MonitorConfig.interval
    (src/modbus_web_monitor/schemas.py),
  * the lock discipline of ModbusTcpSession
    (src/modbus_web_monitor/modbus_client.py).

Python floats are idealised as real numbers; register values and addresses
are integers; fallible operations return Option / Except.
-/

namespace ModbusMonitor

/-! ## Statistics helpers (Python `statistics.mean` / `statistics.stdev`) -/

/-- `statistics.mean`: arithmetic mean of a list. -/
noncomputable def meanR (l : List ℝ) : ℝ := l.sum / l.length

/-- Sample variance with Bessel's correction, as used by `statistics.stdev`. -/
noncomputable def sampleVar (l : List ℝ) : ℝ :=
  ((l.map fun x => (x - meanR l) ^ 2).sum) / ((l.length : ℝ) - 1)

/-- `statistics.stdev`: sample standard deviation. -/
noncomputable def stdevR (l : List ℝ) : ℝ := Real.sqrt (sampleVar l)

/-! ## `compute_z_score` (data_logger.py, lines 55-69) -/

/-- Embedding of `compute_z_score(values, min_samples)`.  `values` is the
most-recent-first window; the result is `(score, mean, stdev)`, each `none`
when the Python function returns `None`. -/
noncomputable def compute_z_score (values : List ℝ) (min_samples : ℕ) :
    Option ℝ × Option ℝ × Option ℝ :=
  if values.length < min_samples then (none, none, none)
  else if values.length < 3 then (none, none, none)
  else
    let history := values.tail
    if history.length < 2 then (none, none, none)
    else
      let mean := meanR history
      let stdev := stdevR history
      if stdev = 0 then (some 0, some mean, some stdev)
      else (some ((values.headD 0 - mean) / stdev), some mean, some stdev)

theorem meanR_const_ten : meanR [10, 10, 10, 10] = 10 := by
  norm_num [meanR, List.sum_cons]

theorem stdevR_const_ten : stdevR [10, 10, 10, 10] = 0 := by
  have h : sampleVar [10, 10, 10, 10] = 0 := by
    norm_num [sampleVar, meanR, List.sum_cons]
  rw [stdevR, h, Real.sqrt_zero]

/-- Evaluation of `compute_z_score` on the spec's concrete scenario. -/
theorem compute_z_score_flat_example :
    compute_z_score [1000, 10, 10, 10, 10] 3 = (some 0, some 10, some 0) := by
  have htail : ([1000, 10, 10, 10, 10] : List ℝ).tail = [10, 10, 10, 10] := rfl
  unfold compute_z_score
  rw [if_neg (by norm_num), if_neg (by norm_num)]
  simp only [htail]
  rw [if_neg (by norm_num)]
  simp [stdevR_const_ten, meanR_const_ten]

/-- C1: with `len(values) ≥ max(minSamples, 3)`, `compute_z_score` takes its
mean and stdev from the baseline `values[1:]` only, returns
`(values[0] - mean)/stdev` when the stdev is nonzero and exactly `0.0` when
the stdev is zero; on `[1000,10,10,10,10]` with `minSamples = 3` it returns
`(0.0, 10, 0)`. -/
theorem zscore_baseline_and_zero_stdev (values : List ℝ) (min_samples : ℕ)
    (h : max min_samples 3 ≤ values.length) :
    (stdevR values.tail = 0 →
      compute_z_score values min_samples =
        (some 0, some (meanR values.tail), some (stdevR values.tail))) ∧
    (stdevR values.tail ≠ 0 →
      compute_z_score values min_samples =
        (some ((values.headD 0 - meanR values.tail) / stdevR values.tail),
         some (meanR values.tail), some (stdevR values.tail))) ∧
    compute_z_score [1000, 10, 10, 10, 10] 3 = (some 0, some 10, some 0) := by
  have hms : min_samples ≤ values.length := le_trans (le_max_left _ _) h
  have h3 : 3 ≤ values.length := le_trans (le_max_right _ _) h
  have htail : values.tail.length = values.length - 1 := List.length_tail values
  refine ⟨?_, ?_, compute_z_score_flat_example⟩ <;> intro hs <;>
    · unfold compute_z_score
      rw [if_neg (by omega), if_neg (by omega)]
      simp only [htail]
      rw [if_neg (by omega)]
      simp [hs]

/-- Witness: the C1 theorem applied at the spec's concrete scenario. -/
theorem zscore_baseline_and_zero_stdev_witness :
    compute_z_score [1000, 10, 10, 10, 10] 3 = (some 0, some 10, some 0) :=
  (zscore_baseline_and_zero_stdev [1000, 10, 10, 10, 10] 3 (by norm_num)).2.2

/-- C2: `compute_z_score` returns a fully defined triple exactly when
`len(values) ≥ minSamples` and `len(values) ≥ 3`, and the all-`None` triple
in every other case. -/
theorem zscore_defined_iff (values : List ℝ) (min_samples : ℕ) :
    (min_samples ≤ values.length ∧ 3 ≤ values.length →
      ∃ s m d, compute_z_score values min_samples = (some s, some m, some d)) ∧
    (¬(min_samples ≤ values.length ∧ 3 ≤ values.length) →
      compute_z_score values min_samples = (none, none, none)) := by
  have htail : values.tail.length = values.length - 1 := List.length_tail values
  constructor
  · rintro ⟨hms, h3⟩
    unfold compute_z_score
    rw [if_neg (by omega), if_neg (by omega)]
    simp only [htail]
    rw [if_neg (by omega)]
    by_cases hs : stdevR values.tail = 0
    · exact ⟨0, meanR values.tail, stdevR values.tail, by simp [hs]⟩
    · exact ⟨(values.headD 0 - meanR values.tail) / stdevR values.tail,
        meanR values.tail, stdevR values.tail, by simp [hs]⟩
  · intro hcond
    unfold compute_z_score
    rcases Nat.lt_or_ge values.length min_samples with hlt | hge
    · rw [if_pos hlt]
    · rw [if_neg (by omega), if_pos (by omega)]

/-- Witness: C2 at a defined input and at an undefined input. -/
theorem zscore_defined_iff_witness :
    (∃ s m d, compute_z_score [1000, 10, 10, 10, 10] 3 = (some s, some m, some d)) ∧
    compute_z_score [1000, 10] 3 = (none, none, none) :=
  ⟨(zscore_defined_iff [1000, 10, 10, 10, 10] 3).1 (by norm_num),
   (zscore_defined_iff [1000, 10] 3).2 (by norm_num)⟩

/-! ## MonitorConfig.interval validation (schemas.py, line 75)

`interval: float = Field(1.0, gt=0.05, le=60.0)` — pydantic accepts the
value exactly when `0.05 < interval ≤ 60`, with default `1.0` when the field
is omitted. -/

/-- The pydantic bound check on `MonitorConfig.interval`: `gt=0.05, le=60.0`. -/
def intervalValid (interval : ℚ) : Bool :=
  decide ((1 : ℚ) / 20 < interval) && decide (interval ≤ 60)

/-- The pydantic default for `MonitorConfig.interval` when the field is
omitted. -/
def intervalDefault : ℚ := 1

/-- C7 counterexample: `interval = 0.05` lies inside the claim's inclusive
range `0.05 ≤ interval ≤ 60`, yet `MonitorConfig` validation rejects it,
because the pydantic lower bound is `gt=0.05` (strict). -/
theorem interval_boundary_rejected :
    intervalValid (1 / 20) = false ∧
    ¬(intervalValid (1 / 20) = true ↔
        ((1 : ℚ) / 20 ≤ 1 / 20 ∧ (1 : ℚ) / 20 ≤ 60)) := by
  constructor
  · rw [intervalValid]
    simp only [Bool.and_eq_false_iff, decide_eq_false_iff_not, not_lt, le_refl, true_or]
  · intro h
    have hval : intervalValid (1 / 20) = true := h.2 (by norm_num)
    rw [intervalValid] at hval
    simp only [Bool.and_eq_true, decide_eq_true_eq] at hval
    exact absurd hval.1 (by norm_num)

/-- C7 amended: `MonitorConfig` accepts an interval exactly when
`0.05 < interval ≤ 60` (the lower boundary is excluded), and the default is
`1.0` when the field is omitted. -/
theorem interval_validation (interval : ℚ) :
    (intervalValid interval = true ↔ (1 / 20 < interval ∧ interval ≤ 60)) ∧
    intervalDefault = 1 := by
  refine ⟨?_, rfl⟩
  rw [intervalValid]
  simp only [Bool.and_eq_true, decide_eq_true_eq]

/-! ## `_perform_writes` (monitor.py, lines 107-116)

The write loop of the websocket command duty: each `WriteOperation` is
executed in order against the device session; on the first
`ModbusOperationError` one error message is sent and the loop returns
(earlier writes stay applied); if all succeed one `ack` is sent.  The device
session is abstracted as a fallible state transformer. -/

/-- Messages `_perform_writes` can send on the websocket. -/
inductive WriteMsg where
  | error (msg : String)
  | ack
deriving DecidableEq

/-- Embedding of `_perform_writes`.  Returns the final device state, the
list of operations that were actually attempted (in order), and the messages
sent. -/
def performWrites {St Op : Type} (write : Op → St → Except String St) :
    List Op → St → St × List Op × List WriteMsg
  | [], s => (s, [], [WriteMsg.ack])
  | op :: rest, s =>
    match write op s with
    | .ok s2 =>
      let r := performWrites write rest s2
      (r.1, op :: r.2.1, r.2.2)
    | .error e => (s, [op], [WriteMsg.error e])

/-- Sequential application of a list of writes, stopping at the first
failure (the state after a successful prefix). -/
def applyAll {St Op : Type} (write : Op → St → Except String St) :
    List Op → St → Except String St
  | [], s => .ok s
  | op :: rest, s =>
    match write op s with
    | .ok s2 => applyAll write rest s2
    | .error e => .error e

/-- C3: writes are executed in order; if all succeed exactly one `ack` is
emitted; if an operation fails after a successful prefix, exactly one error
is emitted, nothing after the failing operation is executed, the prefix is
not rolled back, and no `ack` is emitted. -/
theorem perform_writes_spec {St Op : Type} (write : Op → St → Except String St) :
    (∀ ops s sFin, applyAll write ops s = .ok sFin →
      performWrites write ops s = (sFin, ops, [WriteMsg.ack])) ∧
    (∀ pre op post s sMid e, applyAll write pre s = .ok sMid →
      write op sMid = .error e →
      performWrites write (pre ++ op :: post) s =
        (sMid, pre ++ [op], [WriteMsg.error e])) := by
  constructor
  · intro ops
    induction ops with
    | nil =>
      intro s sFin h
      simp only [applyAll, Except.ok.injEq] at h
      simp [performWrites, h]
    | cons op rest ih =>
      intro s sFin h
      simp only [applyAll] at h
      rcases hw : write op s with e | s2
      · rw [hw] at h; exact absurd h (by simp)
      · rw [hw] at h
        simp only [performWrites, hw, ih s2 sFin h]
  · intro pre
    induction pre with
    | nil =>
      intro op post s sMid e h hfail
      simp only [applyAll, Except.ok.injEq] at h
      subst h
      simp [performWrites, hfail]
    | cons op0 rest ih =>
      intro op post s sMid e h hfail
      simp only [applyAll] at h
      rcases hw : write op0 s with e0 | s2
      · rw [hw] at h; exact absurd h (by simp)
      · rw [hw] at h
        simp only [List.cons_append, performWrites, hw, ih op post s2 sMid e h hfail,
          List.append_eq]

/-- A concrete device for the C3 witness: writing `0` fails, writing any
other integer adds it to the state. -/
def devW (op : ℤ) (s : ℤ) : Except String ℤ :=
  if op = 0 then .error "write failed" else .ok (s + op)

/-- Witness: C3 on a concrete all-success batch and on a batch failing at
its second operation. -/
theorem perform_writes_spec_witness :
    performWrites devW [1, 2] 0 = (3, [1, 2], [WriteMsg.ack]) ∧
    performWrites devW [1, 0, 5] 0 = (1, [1, 0], [WriteMsg.error "write failed"]) := by
  constructor
  · exact (perform_writes_spec devW).1 [1, 2] 0 3 rfl
  · exact (perform_writes_spec devW).2 [1] 0 [5] 0 1 "write failed" rfl rfl

/-! ## Websocket handshake (api.py, lines 266-306; schemas.py, lines 79-99)

`websocket_monitor` receives the first message, validates it as a
`MonitorCommand`, rejects any first command whose type is not `configure`
with one error message and a close, and only afterwards builds a
`MonitorConfig` and enters `run_monitor_session` (which constructs and
connects the `DeviceSession`). -/

/-- The `type` field of `MonitorCommand`. -/
inductive CmdType where
  | configure
  | write
  | ping
deriving DecidableEq

/-- `ConnectionSettings` fields used by the monitor path. -/
structure ConnM where
  host : String
  port : ℕ
  unit_id : ℕ

/-- A `ReadTarget` as in schemas.py. -/
structure TargetM where
  kind : String
  address : ℕ
  count : ℕ
  label : Option String

/-- The value of a `WriteOperation`: `Union[int, bool, List[int], List[bool]]`. -/
inductive WriteValue where
  | int (v : ℤ)
  | bool (b : Bool)
  | ints (l : List ℤ)
  | bools (l : List Bool)

/-- A `WriteOperation` as in schemas.py. -/
structure WriteOpM where
  kind : String
  address : ℕ
  value : WriteValue

/-- The `MonitorCommand` envelope of schemas.py. -/
structure MonitorCommandM where
  type : CmdType
  connection : Option ConnM
  interval : Option ℚ
  targets : Option (List TargetM)
  writes : Option (List WriteOpM)

/-- The `validate_command` model validator of `MonitorCommand`:
`configure` requires a non-empty target list and connection details;
`write` requires a non-empty `writes` list. -/
def validateCommand (c : MonitorCommandM) : Bool :=
  (if c.type = CmdType.configure then
    (match c.targets with
     | none => false
     | some ts => !ts.isEmpty) && c.connection.isSome
   else true) &&
  (if c.type = CmdType.write then
    (match c.writes with
     | none => false
     | some ws => !ws.isEmpty)
   else true)

/-- Messages the session can send to the client. -/
inductive OutMsg where
  | status (msg : String)
  | error (msg : String)
  | ack (msg : String)
  | pong
deriving DecidableEq

/-- Outcome of the websocket handshake: the messages sent, whether the
channel was closed, and whether control proceeds to `run_monitor_session`
(which is the only place a `DeviceSession` is constructed and connected). -/
structure HandshakeResult where
  messages : List OutMsg
  closed : Bool
  opensDeviceSession : Bool
deriving DecidableEq

/-- Python's `command.interval or 1.0`: `None` and `0.0` are falsy. -/
def pyOrDefaultInterval (i : Option ℚ) : ℚ :=
  match i with
  | none => 1
  | some v => if v = 0 then 1 else v

/-- Embedding of the handshake portion of `websocket_monitor`: the argument
is the result of parsing+validating the first message as a `MonitorCommand`
(`.error` when parsing or the model validator fails). -/
def handshake (first : Except String MonitorCommandM) : HandshakeResult :=
  match first with
  | .error e => ⟨[OutMsg.error ("Invalid configuration: " ++ e)], true, false⟩
  | .ok cmd =>
    if cmd.type ≠ CmdType.configure then
      ⟨[OutMsg.error "First message must be a 'configure' command"], true, false⟩
    else
      match cmd.connection with
      | none => ⟨[OutMsg.error "Invalid configuration: missing connection"], true, false⟩
      | some conn =>
        if intervalValid (pyOrDefaultInterval cmd.interval) then
          ⟨[OutMsg.status ("Config set for " ++ conn.host)], false, true⟩
        else
          ⟨[OutMsg.error "Invalid configuration: interval out of range"], true, false⟩

/-- C4: a first message that parses as a valid command whose type is not
`configure` yields exactly one error message, a closed channel, and control
never reaches `run_monitor_session`, so no `DeviceSession` is constructed or
connected. -/
theorem handshake_rejects_non_configure (cmd : MonitorCommandM)
    (hvalid : validateCommand cmd = true) (hty : cmd.type ≠ CmdType.configure) :
    handshake (.ok cmd) =
      ⟨[OutMsg.error "First message must be a 'configure' command"], true, false⟩ := by
  simp [handshake, hty]

/-- Witness: a valid `ping` first command is rejected with one error and no
device session. -/
theorem handshake_rejects_non_configure_witness :
    handshake (.ok ⟨CmdType.ping, none, none, none, none⟩) =
      ⟨[OutMsg.error "First message must be a 'configure' command"], true, false⟩ :=
  handshake_rejects_non_configure ⟨CmdType.ping, none, none, none, none⟩ rfl
    (by intro h; exact absurd h (by decide))

/-! ## SQLite data logger (data_logger.py)

`SQLiteDataLogger.log_readings` flattens each allowed reading into one row
per register value; `_parse_kinds` resolves the retained-kinds allow-list
from the environment override.  The store is modelled as a list of rows held
most-recent-first (the SQL query orders by timestamp descending). -/

/-- `_ALLOWED_KINDS`. -/
def allowedKindsSet : Finset String := {"holding", "input", "coil", "discrete"}

/-- `_DEFAULT_KINDS`. -/
def defaultKindsSet : Finset String := {"holding", "input"}

/-- The last two lines of `_parse_kinds`: keep the chunks naming allowed
kinds; if none remain, fall back to the default set
(`return resolved or set(_DEFAULT_KINDS)`). -/
def resolveKinds (chunks : List String) : Finset String :=
  let resolved := (chunks.filter fun k => decide (k ∈ allowedKindsSet)).toFinset
  if resolved = ∅ then defaultKindsSet else resolved

/-- `_parse_kinds(raw)`: `None`, empty or whitespace-only input, and input
naming no allowed kind, resolve to the default; `"all"` resolves to all four
kinds; otherwise the comma-separated chunks are trimmed, lower-cased,
stripped of empties and resolved against the allowed kinds. -/
def parseKinds (raw : Option String) : Finset String :=
  match raw with
  | none => defaultKindsSet
  | some s =>
    if s.isEmpty then defaultKindsSet
    else
      let value := s.trim.toLower
      if value.isEmpty then defaultKindsSet
      else if value = "all" then allowedKindsSet
      else
        resolveKinds (((value.splitOn ",").map fun chunk => chunk.trim.toLower).filter
          fun chunk => !chunk.isEmpty)

/-- One element of the `readings` argument of `log_readings`: a register
batch read at a base address, raw values still integral. -/
structure ReadingIn where
  kind : String
  address : ℤ
  label : Option String
  values : List ℤ

/-- A persisted row of the `readings` table. -/
structure LoggedReading where
  timestamp : String
  source : String
  host : String
  port : ℕ
  unit_id : ℕ
  kind : String
  address : ℤ
  value : ℝ
  label : Option String
deriving Inhabited

/-- The rows one reading contributes in `log_readings`: none when its kind
is outside the allow-list, otherwise one row per value, at consecutive
addresses, the value coerced to float. -/
def recordsFor (conn : ConnM) (kinds : Finset String) (source timestamp : String)
    (reading : ReadingIn) : List LoggedReading :=
  if reading.kind ∈ kinds then
    reading.values.enum.map fun p =>
      { timestamp := timestamp, source := source, host := conn.host,
        port := conn.port, unit_id := conn.unit_id, kind := reading.kind,
        address := reading.address + (p.1 : ℤ), value := (p.2 : ℝ),
        label := reading.label }
  else []

/-- `log_readings`: no-op when the logger is disabled, otherwise the flattened
rows of the batch are appended to the store. -/
def log_readings (enabled : Bool) (kinds : Finset String) (conn : ConnM)
    (store : List LoggedReading) (readings : List ReadingIn)
    (source timestamp : String) : List LoggedReading :=
  if enabled = false then store
  else store ++ readings.flatMap (recordsFor conn kinds source timestamp)

/-- `fetch_recent_values`: empty when disabled, otherwise the values of the
rows matching the series key, most recent first, truncated to `limit`. -/
def fetch_recent_values (enabled : Bool) (store : List LoggedReading)
    (conn : ConnM) (kind : String) (address : ℤ) (limit : ℕ) : List ℝ :=
  if enabled = false then []
  else
    ((store.filter fun r =>
        r.host == conn.host && r.port == conn.port && r.unit_id == conn.unit_id &&
        r.kind == kind && r.address == address).map fun r => r.value).take limit

/-- Per-point result of the anomaly endpoints: latest value, z-score, sample
count, baseline mean and stdev. -/
structure PointResult where
  latest : Option ℝ
  z : Option ℝ
  count : ℕ
  mean : Option ℝ
  stdev : Option ℝ

/-- The per-offset body of `anomaly_zscore` (api.py, lines 124-144): an empty
window yields the all-undefined point, otherwise `compute_z_score` is used. -/
noncomputable def zscorePoint (values : List ℝ) (min_samples : ℕ) : PointResult :=
  if values.isEmpty then ⟨none, none, 0, none, none⟩
  else
    let r := compute_z_score values min_samples
    ⟨some (values.headD 0), r.1, values.length, r.2.1, r.2.2⟩

/-- C6: a disabled logger persists nothing; a reading whose kind is outside
the allow-list contributes no rows; an allowed reading with `N` values at
base address `A` contributes exactly `N` rows at `A..A+N-1`, one per value,
each value coerced to float, all rows carrying the batch's source and
timestamp; with the logger enabled the store grows by exactly the flattened
rows of the batch. -/
theorem log_readings_rows (kinds : Finset String) (conn : ConnM)
    (store : List LoggedReading) (readings : List ReadingIn)
    (source timestamp : String) :
    (log_readings false kinds conn store readings source timestamp = store) ∧
    (∀ r : ReadingIn, r.kind ∉ kinds →
      recordsFor conn kinds source timestamp r = []) ∧
    (∀ r : ReadingIn, r.kind ∈ kinds →
      (recordsFor conn kinds source timestamp r).length = r.values.length ∧
      ∀ j, j < r.values.length →
        (recordsFor conn kinds source timestamp r).getD j default =
          { timestamp := timestamp, source := source, host := conn.host,
            port := conn.port, unit_id := conn.unit_id, kind := r.kind,
            address := r.address + (j : ℤ), value := ((r.values.getD j 0 : ℤ) : ℝ),
            label := r.label }) ∧
    (log_readings true kinds conn store readings source timestamp =
      store ++ readings.flatMap (recordsFor conn kinds source timestamp)) := by
  refine ⟨rfl, ?_, ?_, rfl⟩
  · intro r hr
    simp [recordsFor, hr]
  · intro r hr
    constructor
    · simp [recordsFor, hr]
    · intro j hj
      have hjlt : j < r.values.enum.length := by
        simpa [List.enum_length] using hj
      simp only [recordsFor, if_pos hr, List.getD]
      rw [List.get?_map, List.get?_enum]
      rcases hcase : r.values.get? j with _ | v
      · exact absurd (List.get?_eq_none.mp hcase) (by omega)
      · rfl

/-- Witness: C6 on a two-value holding reading and a coil reading under the
default allow-list. -/
theorem log_readings_rows_witness :
    (log_readings false defaultKindsSet ⟨"h", 1, 1⟩ [] [⟨"holding", 7, none, [3, 4]⟩]
        "read" "t0" = []) ∧
    recordsFor ⟨"h", 1, 1⟩ defaultKindsSet "read" "t0" ⟨"coil", 0, none, [1]⟩ = [] ∧
    (recordsFor ⟨"h", 1, 1⟩ defaultKindsSet "read" "t0" ⟨"holding", 7, none, [3, 4]⟩).length
      = 2 ∧
    (recordsFor ⟨"h", 1, 1⟩ defaultKindsSet "read" "t0"
        ⟨"holding", 7, none, [3, 4]⟩).getD 1 default =
      { timestamp := "t0", source := "read", host := "h", port := 1, unit_id := 1,
        kind := "holding", address := 7 + (1 : ℤ), value := ((4 : ℤ) : ℝ),
        label := none } := by
  have h := log_readings_rows defaultKindsSet ⟨"h", 1, 1⟩ [] [⟨"holding", 7, none, [3, 4]⟩]
    "read" "t0"
  refine ⟨h.1, h.2.1 ⟨"coil", 0, none, [1]⟩ (by decide), ?_, ?_⟩
  · exact (h.2.2.1 ⟨"holding", 7, none, [3, 4]⟩ (by decide)).1
  · exact (h.2.2.1 ⟨"holding", 7, none, [3, 4]⟩ (by decide)).2 1 (by norm_num)

/-- C10: with no environment override the allow-list is `{holding, input}`;
`coil` and `discrete` readings contribute no rows; a store populated only
with allowed kinds answers every coil/discrete series query with the empty
sequence, so the z-score endpoint reports the all-undefined point for such
series; appends preserve the "only allowed kinds" store invariant; and an
empty or invalid override resolves to the default, never to an empty
allow-list. -/
theorem default_kinds_chain :
    parseKinds none = defaultKindsSet ∧
    (∀ (r : ReadingIn) (conn : ConnM) (source timestamp : String),
      (r.kind = "coil" ∨ r.kind = "discrete") →
      recordsFor conn defaultKindsSet source timestamp r = []) ∧
    (∀ (enabled : Bool) (store : List LoggedReading) (conn : ConnM)
        (kind : String) (address : ℤ) (limit : ℕ),
      (∀ row ∈ store, row.kind ∈ defaultKindsSet) →
      (kind = "coil" ∨ kind = "discrete") →
      fetch_recent_values enabled store conn kind address limit = []) ∧
    (∀ min_samples, zscorePoint [] min_samples = ⟨none, none, 0, none, none⟩) ∧
    (∀ (enabled : Bool) (conn : ConnM) (store : List LoggedReading)
        (readings : List ReadingIn) (source timestamp : String),
      (∀ row ∈ store, row.kind ∈ defaultKindsSet) →
      ∀ row ∈ log_readings enabled defaultKindsSet conn store readings source timestamp,
        row.kind ∈ defaultKindsSet) ∧
    parseKinds (some "") = defaultKindsSet ∧
    (∀ chunks : List String, (∀ k ∈ chunks, k ∉ allowedKindsSet) →
      resolveKinds chunks = defaultKindsSet) ∧
    (∀ raw, parseKinds raw ≠ ∅) := by
  refine ⟨rfl, ?_, ?_, ?_, ?_, rfl, ?_, ?_⟩
  · intro r conn source timestamp hk
    have hout : r.kind ∉ defaultKindsSet := by
      rcases hk with h | h <;> rw [h] <;> decide
    simp [recordsFor, hout]
  · intro enabled store conn kind address limit hstore hkind
    unfold fetch_recent_values
    cases enabled with
    | false => simp
    | true =>
      rw [if_neg (by simp)]
      have hfil : (store.filter fun r =>
          r.host == conn.host && r.port == conn.port && r.unit_id == conn.unit_id &&
          r.kind == kind && r.address == address) = [] := by
        rw [List.filter_eq_nil]
        intro row hrow hpred
        simp only [Bool.and_eq_true, beq_iff_eq] at hpred
        have hmem : row.kind ∈ defaultKindsSet := hstore row hrow
        rw [hpred.1.2] at hmem
        rcases hkind with h | h <;> rw [h] at hmem <;> revert hmem <;> decide
      rw [hfil]
      simp
  · intro min_samples
    rfl
  · intro enabled conn store readings source timestamp hstore row hrow
    unfold log_readings at hrow
    cases enabled with
    | false => exact hstore row (by simpa using hrow)
    | true =>
      rw [if_neg (by simp)] at hrow
      rcases List.mem_append.mp hrow with hold | hnew
      · exact hstore row hold
      · obtain ⟨r, _, hr⟩ := List.mem_flatMap.mp hnew
        by_cases hk : r.kind ∈ defaultKindsSet
        · simp only [recordsFor, if_pos hk, List.mem_map] at hr
          obtain ⟨p, _, hp⟩ := hr
          rw [← hp]
          exact hk
        · simp [recordsFor, hk] at hr
  · intro chunks hout
    have hfil : (chunks.filter fun k => decide (k ∈ allowedKindsSet)) = [] := by
      rw [List.filter_eq_nil]
      intro k hk hdec
      exact absurd (of_decide_eq_true hdec) (hout k hk)
    simp [resolveKinds, hfil]
  · have hres : ∀ chunks, resolveKinds chunks ≠ ∅ := by
      intro chunks
      simp only [resolveKinds]
      split
      · decide
      · next hr => exact hr
    intro raw
    rcases raw with _ | s
    · rw [parseKinds]
      decide
    · simp only [parseKinds]
      split
      · decide
      · split
        · decide
        · split
          · decide
          · exact hres _

/-- Witness: C10 on a concrete coil reading, an empty store query, and the
empty-window z-score point. -/
theorem default_kinds_chain_witness :
    recordsFor ⟨"h", 1, 1⟩ defaultKindsSet "monitor" "t1" ⟨"coil", 3, none, [1, 0]⟩ = [] ∧
    fetch_recent_values true [] ⟨"h", 1, 1⟩ "discrete" 0 60 = [] ∧
    zscorePoint [] 10 = ⟨none, none, 0, none, none⟩ ∧
    (∀ row ∈ log_readings true defaultKindsSet ⟨"h", 1, 1⟩ []
        [⟨"coil", 3, none, [1, 0]⟩] "monitor" "t1", row.kind ∈ defaultKindsSet) ∧
    resolveKinds ["bogus", "junk"] = defaultKindsSet :=
  ⟨default_kinds_chain.2.1 ⟨"coil", 3, none, [1, 0]⟩ ⟨"h", 1, 1⟩ "monitor" "t1" (Or.inl rfl),
   default_kinds_chain.2.2.1 true [] ⟨"h", 1, 1⟩ "discrete" 0 60
     (by intro row h; exact absurd h (List.not_mem_nil row)) (Or.inr rfl),
   default_kinds_chain.2.2.2.1 10,
   default_kinds_chain.2.2.2.2.1 true ⟨"h", 1, 1⟩ [] [⟨"coil", 3, none, [1, 0]⟩]
     "monitor" "t1" (by intro row h; exact absurd h (List.not_mem_nil row)),
   default_kinds_chain.2.2.2.2.2.2.1 ["bogus", "junk"] (by decide)⟩

/-! ## Period estimation (api.py, lines 90-112)

`_autocorr` computes the lag-`k` autocorrelation coefficient, mean-centered
and normalized by the total variance; `_estimate_period` scans lags
`1..max(1, min(max_lag, len-2))`, keeps the first lag attaining the maximum
coefficient (`best_corr` starts at `-inf`, so the lag-1 iteration always
replaces it), and clamps the result to at least 2; fewer than 4 points give
the default period 2. -/

/-- Embedding of `_autocorr(values, lag)`. -/
noncomputable def autocorr (values : List ℝ) (lag : ℕ) : ℝ :=
  if values.length - lag ≤ 1 then 0
  else
    let mean := meanR values
    let denom := (values.map fun v => (v - mean) ^ 2).sum
    if denom = 0 then 0
    else
      ((List.range (values.length - lag)).map fun i =>
        (values.getD i 0 - mean) * (values.getD (i + lag) 0 - mean)).sum / denom

/-- The scanning loop of `_estimate_period`: fold the remaining lags over the
current `(best_lag, best_corr)` pair, replacing it on a strictly larger
coefficient. -/
noncomputable def bestLagGo (values : List ℝ) : List ℕ → ℕ × ℝ → ℕ × ℝ
  | [], best => best
  | lag :: rest, best =>
    bestLagGo values rest
      (if best.2 < autocorr values lag then (lag, autocorr values lag) else best)

/-- Embedding of `_estimate_period(values, max_lag)`. -/
noncomputable def estimate_period (values : List ℝ) (max_lag : ℕ) : ℕ :=
  if values.length < 4 then 2
  else
    let m := max 1 (min max_lag (values.length - 2))
    max 2 (bestLagGo values ((List.range (m - 1)).map fun i => i + 2)
      (1, autocorr values 1)).1

theorem bestLagGo_invariant (values : List ℝ) (lags : List ℕ) (best : ℕ × ℝ)
    (hbest : best.2 = autocorr values best.1) :
    (bestLagGo values lags best).2 = autocorr values (bestLagGo values lags best).1 ∧
    ((bestLagGo values lags best).1 = best.1 ∨ (bestLagGo values lags best).1 ∈ lags) ∧
    best.2 ≤ (bestLagGo values lags best).2 ∧
    ∀ lag ∈ lags, autocorr values lag ≤ (bestLagGo values lags best).2 := by
  induction lags generalizing best with
  | nil => exact ⟨hbest, Or.inl rfl, le_refl _, by simp⟩
  | cons lag rest ih =>
    by_cases h : best.2 < autocorr values lag
    · have step : bestLagGo values (lag :: rest) best =
          bestLagGo values rest (lag, autocorr values lag) := by
        simp [bestLagGo, if_pos h]
      obtain ⟨h1, h2, h3, h4⟩ := ih (lag, autocorr values lag) rfl
      rw [step]
      refine ⟨h1, ?_, le_trans (le_of_lt h) h3, ?_⟩
      · rcases h2 with h2 | h2
        · exact Or.inr (by rw [h2]; exact List.mem_cons_self lag rest)
        · exact Or.inr (List.mem_cons_of_mem lag h2)
      · intro l hl
        rcases List.mem_cons.mp hl with hl | hl
        · rw [hl]; exact h3
        · exact h4 l hl
    · have step : bestLagGo values (lag :: rest) best = bestLagGo values rest best := by
        simp [bestLagGo, if_neg h]
      obtain ⟨h1, h2, h3, h4⟩ := ih best hbest
      rw [step]
      refine ⟨h1, ?_, h3, ?_⟩
      · rcases h2 with h2 | h2
        · exact Or.inl h2
        · exact Or.inr (List.mem_cons_of_mem lag h2)
      · intro l hl
        rcases List.mem_cons.mp hl with hl | hl
        · rw [hl]; exact le_trans (le_of_not_lt h) h3
        · exact h4 l hl

/-- C5: the period estimate is exactly 2 for fewer than 4 points; with at
least 4 points and the caller's `max_lag = min(100, len-2)` it equals
`max 2 L` for a lag `L` in `[1, min(100, len-2)]` attaining the maximum
autocorrelation coefficient; and it is at least 2 for every `max_lag`. -/
theorem estimate_period_spec (values : List ℝ) :
    (values.length < 4 → estimate_period values (min 100 (values.length - 2)) = 2) ∧
    (4 ≤ values.length →
      ∃ L, 1 ≤ L ∧ L ≤ min 100 (values.length - 2) ∧
        (∀ lag, 1 ≤ lag → lag ≤ min 100 (values.length - 2) →
          autocorr values lag ≤ autocorr values L) ∧
        estimate_period values (min 100 (values.length - 2)) = max 2 L) ∧
    ∀ max_lag, 2 ≤ estimate_period values max_lag := by
  refine ⟨?_, ?_, ?_⟩
  · intro h
    rw [estimate_period, if_pos h]
  · intro h
    set m := min 100 (values.length - 2) with hm
    have hm2 : 2 ≤ m := by omega
    have hmle : m ≤ values.length - 2 := by omega
    have hclamp : max 1 (min m (values.length - 2)) = m := by omega
    have hlags : ∀ lag, lag ∈ (List.range (m - 1)).map (fun i => i + 2) ↔
        (2 ≤ lag ∧ lag ≤ m) := by
      intro lag
      simp only [List.mem_map, List.mem_range]
      constructor
      · rintro ⟨i, hi, rfl⟩; omega
      · rintro ⟨h2, hle⟩; exact ⟨lag - 2, by omega, by omega⟩
    obtain ⟨h1, h2, h3, h4⟩ := bestLagGo_invariant values
      ((List.range (m - 1)).map fun i => i + 2) (1, autocorr values 1) rfl
    set r := bestLagGo values ((List.range (m - 1)).map fun i => i + 2)
      (1, autocorr values 1) with hr
    refine ⟨r.1, ?_, ?_, ?_, ?_⟩
    · rcases h2 with h2 | h2
      · omega
      · have := (hlags r.1).mp h2; omega
    · rcases h2 with h2 | h2
      · omega
      · exact ((hlags r.1).mp h2).2
    · intro lag hlag1 hlagm
      rcases Nat.lt_or_ge lag 2 with hsm | hsm
      · have : lag = 1 := by omega
        rw [this, ← h1]
        exact h3
      · rw [← h1]
        exact h4 lag ((hlags lag).mpr ⟨hsm, hlagm⟩)
    · rw [estimate_period, if_neg (by omega)]
      simp only [hclamp]
  · intro max_lag
    rw [estimate_period]
    split
    · exact le_refl 2
    · exact le_max_left _ _

/-- Witness: C5 on a 3-point input (default period 2), a 5-point input
(existence of a maximizing lag), and the unconditional lower bound. -/
theorem estimate_period_spec_witness :
    estimate_period [1, 2, 3] (min 100 (([1, 2, 3] : List ℝ).length - 2)) = 2 ∧
    (∃ L, 1 ≤ L ∧ L ≤ min 100 (([5, 1, 5, 1, 5] : List ℝ).length - 2) ∧
      (∀ lag, 1 ≤ lag → lag ≤ min 100 (([5, 1, 5, 1, 5] : List ℝ).length - 2) →
        autocorr [5, 1, 5, 1, 5] lag ≤ autocorr [5, 1, 5, 1, 5] L) ∧
      estimate_period [5, 1, 5, 1, 5]
        (min 100 (([5, 1, 5, 1, 5] : List ℝ).length - 2)) = max 2 L) ∧
    2 ≤ estimate_period [1, 2, 3] 7 :=
  ⟨(estimate_period_spec [1, 2, 3]).1 (by norm_num),
   (estimate_period_spec [5, 1, 5, 1, 5]).2.1 (by norm_num),
   (estimate_period_spec [1, 2, 3]).2.2 7⟩

/-! ## Seasonal-residual scoring (api.py, lines 159-242)

`anomaly_stl` first checks the optional STL backend: when `statsmodels` is
not importable (`STL is None`) the endpoint raises HTTP 503 before touching
any data.  With a backend, each point's window is reversed to chronological
order and scored independently; a per-point decomposition failure is caught
and degrades that point to the all-undefined result.  The STL fit is
abstracted as a fallible function from the chronological window and the
estimated period to the residual series. -/

/-- The per-offset body of `anomaly_stl` (api.py, lines 174-229). -/
noncomputable def stlPoint (fit : List ℝ → ℕ → Except String (List ℝ))
    (min_samples : ℕ) (raw : List ℝ) : PointResult :=
  let values := raw.reverse
  if values.isEmpty then ⟨none, none, 0, none, none⟩
  else
    let latest := some (values.getLastD 0)
    let count := values.length
    if values.length < min_samples then ⟨latest, none, count, none, none⟩
    else
      match fit values (estimate_period values (min 100 (values.length - 2))) with
      | .error _ => ⟨latest, none, count, none, none⟩
      | .ok residuals =>
        if residuals.length < 2 then ⟨latest, none, count, none, none⟩
        else
          let history := residuals.dropLast
          if history.length < 2 then ⟨latest, none, count, none, none⟩
          else
            let mean := meanR history
            let stdev := stdevR history
            let z := if stdev = 0 then (0 : ℝ)
              else (residuals.getLastD 0 - mean) / stdev
            ⟨latest, some z, count, some mean, some stdev⟩

/-- Embedding of the `anomaly_stl` route: `.error 503` when no decomposition
backend is available, otherwise each target offset's fetched window is
scored independently by `stlPoint`. -/
noncomputable def anomalyStl (backend : Option (List ℝ → ℕ → Except String (List ℝ)))
    (min_samples : ℕ) (series : List (List ℝ)) : Except ℕ (List PointResult) :=
  match backend with
  | none => Except.error 503
  | some fit => Except.ok (series.map (stlPoint fit min_samples))

/-- C8 counterexample: with no decomposition backend the `anomaly_stl`
endpoint fails the whole request with HTTP 503 instead of returning
per-point undefined results. -/
theorem stl_no_backend_fails_request :
    anomalyStl none 3 [[1, 1, 1, 1]] = Except.error 503 ∧
    ∀ results, anomalyStl none 3 [[1, 1, 1, 1]] ≠ Except.ok results := by
  refine ⟨rfl, ?_⟩
  intro results h
  rw [show anomalyStl none 3 [[1, 1, 1, 1]] = Except.error 503 from rfl] at h
  exact Except.noConfusion h

/-- C8 amended: a per-point decomposition failure never propagates — the
failing point degrades to the all-undefined result while every other point
of the batch is still scored from its own window; but an entirely missing
decomposition backend fails the whole request with a 503 feature-unavailable
error rather than degrading to per-point undefined results. -/
theorem stl_partial_failure_isolated
    (fit : List ℝ → ℕ → Except String (List ℝ)) (min_samples : ℕ)
    (series : List (List ℝ)) (raw : List ℝ) (e : String)
    (hne : raw.reverse.isEmpty = false)
    (hms : ¬ raw.reverse.length < min_samples)
    (hfit : fit raw.reverse
        (estimate_period raw.reverse (min 100 (raw.reverse.length - 2))) =
      Except.error e) :
    anomalyStl (some fit) min_samples series =
      Except.ok (series.map (stlPoint fit min_samples)) ∧
    stlPoint fit min_samples raw =
      ⟨some (raw.reverse.getLastD 0), none, raw.reverse.length, none, none⟩ ∧
    anomalyStl none min_samples series = Except.error 503 := by
  refine ⟨rfl, ?_, rfl⟩
  rw [stlPoint]
  simp only [hne, Bool.false_eq_true, if_false, if_neg hms, hfit]

/-- Witness: C8 with an always-failing decomposition backend on a concrete
window. -/
theorem stl_partial_failure_isolated_witness :
    anomalyStl (some fun _ _ => Except.error "fit failed") 3 [[1, 2, 3]] =
      Except.ok ([[(1 : ℝ), 2, 3]].map (stlPoint (fun _ _ => Except.error "fit failed") 3)) ∧
    stlPoint (fun _ _ => Except.error "fit failed") 3 [1, 2, 3] =
      ⟨some (([1, 2, 3] : List ℝ).reverse.getLastD 0), none,
        ([1, 2, 3] : List ℝ).reverse.length, none, none⟩ ∧
    anomalyStl none 3 [[(1 : ℝ), 2, 3]] = Except.error 503 :=
  stl_partial_failure_isolated (fun _ _ => Except.error "fit failed") 3
    [[(1 : ℝ), 2, 3]] [1, 2, 3] "fit failed" rfl (by norm_num) rfl

/-! ## DeviceSession lock discipline (modbus_client.py, lines 46-122)

`ModbusTcpSession.read` and `write` wrap every device I/O call in
`async with self._lock`, the single per-instance `asyncio.Lock`.  The model
is a transition system over the cooperative tasks sharing one session: each
task is `ready` (not holding the lock) or `busy` (holding the lock, its
device I/O in flight on the wire); a task may enter `busy` only when the
lock is free, and completes its head operation on release.  Tasks are
cooperative coroutines, so each caller issues its next operation only after
the previous one completed — `remaining` is the caller's issue-order queue. -/

/-- Whether a task currently holds the session lock and has device I/O in
flight. -/
inductive TaskPhase where
  | ready
  | busy
deriving DecidableEq

/-- State of one `ModbusTcpSession` shared by cooperatively scheduled
caller tasks, indexed by task id. -/
structure SessionSched (Op : Type) where
  lock : Option ℕ
  phase : ℕ → TaskPhase
  remaining : ℕ → List Op
  completed : ℕ → List Op

/-- One scheduler step: a task acquires the free lock to start its next
operation, or the lock holder finishes its in-flight operation and releases
the lock. -/
inductive SessStep {Op : Type} : SessionSched Op → SessionSched Op → Prop where
  | acquire (s : SessionSched Op) (t : ℕ) (op : Op) (ops : List Op) :
      s.lock = none → s.phase t = TaskPhase.ready → s.remaining t = op :: ops →
      SessStep s { s with lock := some t,
                          phase := Function.update s.phase t TaskPhase.busy }
  | release (s : SessionSched Op) (t : ℕ) (op : Op) (ops : List Op) :
      s.lock = some t → s.phase t = TaskPhase.busy → s.remaining t = op :: ops →
      SessStep s { lock := none,
                   phase := Function.update s.phase t TaskPhase.ready,
                   remaining := Function.update s.remaining t ops,
                   completed := Function.update s.completed t (s.completed t ++ [op]) }

/-- The session's initial state: lock free, every task ready with its full
program of operations pending. -/
def initSched {Op : Type} (prog : ℕ → List Op) : SessionSched Op :=
  ⟨none, fun _ => TaskPhase.ready, prog, fun _ => []⟩

/-- States the session can reach from the initial state. -/
def SchedReachable {Op : Type} (prog : ℕ → List Op) (s : SessionSched Op) : Prop :=
  Relation.ReflTransGen SessStep (initSched prog) s

/-- The lock invariant: only the lock holder can have I/O in flight, and
each task's completed prefix plus pending suffix is its issue-order
program. -/
def SchedInv {Op : Type} (prog : ℕ → List Op) (s : SessionSched Op) : Prop :=
  (∀ t, s.phase t = TaskPhase.busy → s.lock = some t) ∧
  (∀ t, s.completed t ++ s.remaining t = prog t)

theorem schedInv_init {Op : Type} (prog : ℕ → List Op) :
    SchedInv prog (initSched prog) :=
  ⟨fun t h => absurd h (by simp [initSched]), fun t => by simp [initSched]⟩

theorem schedInv_step {Op : Type} (prog : ℕ → List Op) (s s2 : SessionSched Op)
    (hinv : SchedInv prog s) (hstep : SessStep s s2) : SchedInv prog s2 := by
  obtain ⟨hlock, horder⟩ := hinv
  cases hstep with
  | acquire t op ops hfree hready hrem =>
    refine ⟨?_, horder⟩
    intro u hu
    have hu2 : Function.update s.phase t TaskPhase.busy u = TaskPhase.busy := hu
    show some t = some u
    by_cases htu : u = t
    · rw [htu]
    · rw [Function.update_noteq htu] at hu2
      have hl := hlock u hu2
      rw [hfree] at hl
      exact Option.noConfusion hl
  | release t op ops hheld hbusy hrem =>
    constructor
    · intro u hu
      have hu2 : Function.update s.phase t TaskPhase.ready u = TaskPhase.busy := hu
      show (none : Option ℕ) = some u
      by_cases htu : u = t
      · rw [htu, Function.update_same] at hu2
        exact TaskPhase.noConfusion hu2
      · rw [Function.update_noteq htu] at hu2
        have hl := hlock u hu2
        rw [hheld] at hl
        exact absurd (Option.some.inj hl).symm htu
    · intro u
      show Function.update s.completed t (s.completed t ++ [op]) u ++
          Function.update s.remaining t ops u = prog u
      by_cases htu : u = t
      · subst htu
        rw [Function.update_same, Function.update_same, List.append_assoc]
        have h0 := horder u
        rw [hrem] at h0
        rw [← h0]
        rfl
      · rw [Function.update_noteq htu, Function.update_noteq htu]
        exact horder u

theorem schedReachable_inv {Op : Type} (prog : ℕ → List Op) (s : SessionSched Op)
    (h : SchedReachable prog s) : SchedInv prog s := by
  induction h with
  | refl => exact schedInv_init prog
  | tail _ hstep ih => exact schedInv_step prog _ _ ih hstep

/-- C9: in every reachable state of a `ModbusTcpSession`, at most one task
has device I/O in flight — the per-instance lock serializes all reads and
writes, so concurrent calls never overlap on the wire — and each caller's
completed operations followed by its pending ones are exactly its program in
issue order. -/
theorem session_lock_serializes {Op : Type} (prog : ℕ → List Op)
    (s : SessionSched Op) (h : SchedReachable prog s) :
    (∀ t u, s.phase t = TaskPhase.busy → s.phase u = TaskPhase.busy → t = u) ∧
    ∀ t, s.completed t ++ s.remaining t = prog t := by
  obtain ⟨hlock, horder⟩ := schedReachable_inv prog s h
  refine ⟨?_, horder⟩
  intro t u ht hu
  have h1 := hlock t ht
  have h2 := hlock u hu
  rw [h1] at h2
  exact Option.some.inj h2

/-- Witness: C9 at the initial state of a concrete two-task program, and
after the first task has acquired the lock. -/
theorem session_lock_serializes_witness :
    ((initSched fun t => [t]).completed 0 ++ (initSched fun t => [t]).remaining 0
      = [0]) ∧
    ∀ t u, (initSched fun t => [t]).phase t = TaskPhase.busy →
      (initSched fun t => [t]).phase u = TaskPhase.busy → t = u :=
  ⟨(session_lock_serializes (fun t => [t]) (initSched fun t => [t])
      Relation.ReflTransGen.refl).2 0,
   (session_lock_serializes (fun t => [t]) (initSched fun t => [t])
      Relation.ReflTransGen.refl).1⟩

end ModbusMonitor
